import Mathlib

/-!
Verification of the session-and-call lifecycle coordinator of the
react-native-vpage-sdk repository: a shallow embedding of the
SocketService (STOMP/SockJS session channel manager), the VekycService
(call engine coordinator) and the CryptoService AES helpers, together
with proofs of the spec's testable properties.

Strings of the TypeScript source are modelled as `List Char`; `undefined`
values are modelled as `Option.none`.  Each stateful method is embedded
as a function from the instance state to the new state paired with the
list of observable effects (log lines, transport calls, engine calls)
the method performs, in order.
-/

namespace VPage

/-- JS `String.prototype.startsWith` on char lists (used to locate
separator occurrences for `String.prototype.split`). -/
def leadsWith : List Char → List Char → Bool
  | [], _ => true
  | _ :: _, [] => false
  | a :: as, b :: bs => a == b && leadsWith as bs

/-- JS `String.prototype.includes` on char lists: does `sep` occur as a
contiguous run inside `l`? (For the empty `sep` this is `true`, as in JS.) -/
def jsIncludes (sep : List Char) : List Char → Bool
  | [] => leadsWith sep []
  | l@(_ :: cs) => leadsWith sep l || jsIncludes sep cs

/-- Fuel-driven worker for JS `String.prototype.split` with a non-empty
separator: scan left to right, cutting at each non-overlapping occurrence
of `sep`.  `acc` holds the current piece reversed.  The fuel is only a
structural-recursion device; it never runs out when it starts at the
length of the scanned list. -/
def splitGo (sep : List Char) : Nat → List Char → List Char → List (List Char)
  | _, acc, [] => [acc.reverse]
  | 0, acc, l => [acc.reverse ++ l]
  | f + 1, acc, c :: cs =>
    if leadsWith sep (c :: cs) && !sep.isEmpty then
      acc.reverse :: splitGo sep f [] (List.drop sep.length (c :: cs))
    else
      splitGo sep f (c :: acc) cs

/-- JS `String.prototype.split(sep)` for a non-empty separator, on char
lists.  (The repository only ever splits on `'/websocket-agent'` and
`'/'`, both non-empty.) -/
def jsSplit (sep l : List Char) : List (List Char) :=
  splitGo sep l.length [] l

/-- The fixed signaling path marker `environment.SOCKET_PATH`
(`'/websocket-agent'` in `src/utils/helpers`). -/
def SOCKET_PATH : List Char := ("/websocket-agent").toList

/-- The char `'/'` as a one-char separator list. -/
def slashSep : List Char := ("/").toList

/-- Embedding of the body of `SocketService.setSocketId`
(`src/websocket/socketService.ts`): given the (possibly absent)
negotiated transport URL `this.socket?._transport?.url` and the previous
`this.socketId`, return the new `socketId`.  `segments[2] || ''` is
modelled by `(·.get? 2).getD []`, which returns the empty string both
when the index is out of range (`undefined`) and when the segment is the
(falsy) empty string — exactly the JS `|| ''` result. -/
def setSocketIdCore (url : Option (List Char)) (old : List Char) : List Char :=
  match url with
  | none => old
  | some u =>
    if !u.isEmpty && jsIncludes SOCKET_PATH u then
      match jsSplit SOCKET_PATH u with
      | _ :: pathAfterSocketPath :: _ =>
        ((jsSplit slashSep pathAfterSocketPath).get? 2).getD []
      | _ => old
    else old

/-- Topic prefix used by the `/user/...` topics. -/
def userPrefix : List Char := ("/user/").toList

/-- Suffix of the notify topics. -/
def notifySuffix : List Char := ("/notify").toList

/-- Suffix of the health topic. -/
def healthSuffix : List Char := ("/health").toList

/-- The `/app/live` topic. -/
def appLiveTopic : List Char := ("/app/live").toList

/-- The `/app/healthCheck` destination of the periodic health ping. -/
def healthCheckDest : List Char := ("/app/healthCheck").toList

/-- Observable effects of a `SocketService` method call, in program order:
console logs, SockJS/STOMP transport calls, and JS interval-timer calls. -/
inductive SockAction
  | createTransport (url : List Char)
  | errorAlreadyInit
  | errorNotInit
  | errorAlreadyConnected
  | warnNullInstance
  | warnStopping
  | warnUnexpectedUrl
  | logCleared
  | logStarted
  | setIntervalA (id delayMs : Nat)
  | clearIntervalA (id : Nat)
  | subscribeTopic (topic : List Char)
  | unsubscribeTopic (topic : List Char)
  | publish (dest : List Char)
  | activate
  | deactivate
  | resetHandlers
  deriving DecidableEq

/-- State of one `SocketService` instance, together with the bookkeeping
of the JS runtime's interval timers that the instance has created.
`socket = none` models `this.socket === undefined`; `socket = some none`
a SockJS object whose `_transport.url` is not (yet) available;
`socket = some (some u)` a SockJS object whose negotiated transport URL
is `u`.  `liveTimers`/`nextTimerId` model the runtime's set of not-yet-
cancelled interval timers created by this instance and the next fresh
timer id `setInterval` would return. -/
structure SocketSt where
  socket : Option (Option (List Char)) := none
  sessionKey : List Char := []
  token : List Char := []
  socketId : List Char := []
  clientPresent : Bool := false
  connected : Bool := false
  timerInterval : Option Nat := none
  liveTimers : List Nat := []
  nextTimerId : Nat := 0
  deriving DecidableEq

/-- The state of a freshly constructed `SocketService` (all fields at
their TypeScript initializers). -/
def initialState : SocketSt := {}

/-- Embedding of `SocketService.initialize`: rejected (error log, state
untouched) when a STOMP client already exists; otherwise creates the
SockJS transport at `serverURL + SOCKET_PATH` and records session key,
token and the new client. -/
def initClient (serverURL sessionKey token : List Char) (s : SocketSt) :
    SocketSt × List SockAction :=
  if s.clientPresent then (s, [.errorAlreadyInit])
  else ({ s with
          socket := some none, sessionKey := sessionKey, token := token,
          clientPresent := true },
        [.createTransport (serverURL ++ SOCKET_PATH)])

/-- Environment event: the SockJS transport finishes negotiating and its
`_transport.url` becomes `u` (only meaningful while a socket exists). -/
def negotiateTransport (u : List Char) (s : SocketSt) : SocketSt :=
  { s with socket := s.socket.map (fun _ => some u) }

/-- Embedding of the private `SocketService.setSocketId` method: reads
`this.socket?._transport?.url` and recomputes `this.socketId` from it
(console warnings of the method are not modelled). -/
def setSocketId (s : SocketSt) : SocketSt :=
  { s with socketId := setSocketIdCore s.socket.join s.socketId }

/-- Embedding of `SocketService.subscribe`. -/
def subscribeT (topic : List Char) (s : SocketSt) : SocketSt × List SockAction :=
  if !s.clientPresent then (s, [.errorNotInit]) else (s, [.subscribeTopic topic])

/-- Embedding of `SocketService.subscribeSessionNotifyTopic`. -/
def subscribeSessionNotifyTopic (s : SocketSt) : SocketSt × List SockAction :=
  if !s.clientPresent then (s, [.errorNotInit])
  else subscribeT (userPrefix ++ s.sessionKey ++ notifySuffix) s

/-- Embedding of `SocketService.subscribeSocketNotifyTopic`. -/
def subscribeSocketNotifyTopic (s : SocketSt) : SocketSt × List SockAction :=
  if !s.clientPresent then (s, [.errorNotInit])
  else subscribeT (userPrefix ++ s.socketId ++ notifySuffix) s

/-- Embedding of `SocketService.subscribeSocketHealthTopic`. -/
def subscribeSocketHealthTopic (s : SocketSt) : SocketSt × List SockAction :=
  if !s.clientPresent then (s, [.errorNotInit])
  else subscribeT (userPrefix ++ s.socketId ++ healthSuffix) s

/-- Embedding of `SocketService.send`. -/
def send (dest : List Char) (s : SocketSt) : SocketSt × List SockAction :=
  if !s.clientPresent then (s, [.errorNotInit]) else (s, [.publish dest])

/-- Embedding of `SocketService.clearHealthCheck`: cancel the interval
timer if one is recorded; idempotent. -/
def clearHealthCheck (s : SocketSt) : SocketSt × List SockAction :=
  match s.timerInterval with
  | some id =>
    ({ s with timerInterval := none, liveTimers := s.liveTimers.erase id },
     [.clearIntervalA id, .logCleared])
  | none => (s, [])

/-- Embedding of `SocketService.startHealthCheck`: always clears any
previous timer first; if the passed instance reference is null it warns
and stops, otherwise it schedules a fresh recurring 3000 ms task. -/
def startHealthCheck (selfNonNull : Bool) (s : SocketSt) :
    SocketSt × List SockAction :=
  let p := clearHealthCheck s
  if !selfNonNull then (p.fst, p.snd ++ [.warnNullInstance])
  else ({ p.fst with
          timerInterval := some p.fst.nextTimerId,
          liveTimers := p.fst.liveTimers ++ [p.fst.nextTimerId],
          nextTimerId := p.fst.nextTimerId + 1 },
        p.snd ++ [.setIntervalA p.fst.nextTimerId 3000, .logStarted])

/-- Embedding of the private `SocketService.validateToken` body run by
each timer iteration.  `publishThrows` is the environment's choice of
whether the underlying `client.publish` throws on this iteration; when
the client is absent, `send` only logs and returns, so nothing throws. -/
def validateToken (publishThrows : Bool) (s : SocketSt) :
    SocketSt × List SockAction :=
  if !s.clientPresent then (s, [.errorNotInit])
  else if publishThrows then
    let p := clearHealthCheck s
    (p.fst, .warnStopping :: p.snd)
  else (s, [.publish healthCheckDest])

/-- One scheduler tick: if this instance's interval timer is live, run
its `validateToken` iteration, otherwise nothing happens. -/
def tick (publishThrows : Bool) (s : SocketSt) : SocketSt × List SockAction :=
  match s.timerInterval with
  | none => (s, [])
  | some _ => validateToken publishThrows s

/-- Embedding of `SocketService.connect`. -/
def connectClient (s : SocketSt) : SocketSt × List SockAction :=
  if !s.clientPresent then (s, [.errorNotInit])
  else if s.connected then (s, [.errorAlreadyConnected])
  else ({ s with connected := true }, [.activate])

/-- Embedding of `SocketService.disconnect`. -/
def disconnectClient (s : SocketSt) : SocketSt × List SockAction :=
  if !s.clientPresent then (s, [.errorNotInit])
  else ({ s with connected := false }, [.deactivate])

/-- Embedding of `SocketService.unregisterEventHandler` at the state
level (the handler slots themselves are modelled separately; here only
the effect on the client object is recorded). -/
def unregisterEvents (s : SocketSt) : SocketSt × List SockAction :=
  if !s.clientPresent then (s, [.errorNotInit]) else (s, [.resetHandlers])

/-- Embedding of `SocketService.unsubscribeTopics`. -/
def unsubscribeTopics (s : SocketSt) : SocketSt × List SockAction :=
  if !s.clientPresent then (s, [.errorNotInit])
  else (s, [.unsubscribeTopic (userPrefix ++ s.sessionKey ++ notifySuffix),
            .unsubscribeTopic (userPrefix ++ s.socketId ++ notifySuffix),
            .unsubscribeTopic (userPrefix ++ s.socketId ++ healthSuffix),
            .unsubscribeTopic appLiveTopic])

/-- Embedding of `SocketService.cleanup`: error log when no client;
otherwise clear health check, disconnect, unregister handlers,
unsubscribe the four topics, then drop the client and the socket. -/
def cleanupClient (s : SocketSt) : SocketSt × List SockAction :=
  if !s.clientPresent then (s, [.errorNotInit])
  else
    let p1 := clearHealthCheck s
    let p2 := disconnectClient p1.fst
    let p3 := unregisterEvents p2.fst
    let p4 := unsubscribeTopics p3.fst
    ({ p4.fst with clientPresent := false, socket := none },
     p1.snd ++ p2.snd ++ p3.snd ++ p4.snd)

/-- Type of an on-connect callback as wired to the STOMP client: it runs
against the instance state and produces the new state plus effects. -/
def OnConnectCb : Type := SocketSt → SocketSt × List SockAction

/-- The STOMP client's registered handler slots (only the on-connect
slot matters to the claims; the other nine slots are pass-through
assignments carrying no state). -/
structure HandlerSlots where
  onConnect : Option OnConnectCb

/-- Handler slots of a fresh client: nothing registered. -/
def emptySlots : HandlerSlots := ⟨none⟩

/-- Embedding of `SocketService.registerEventHandler`, restricted to the
on-connect slot: with no client it only logs; otherwise it stores the
wrapper `frame => { this.setSocketId(); onConnect(frame); }` — the
identity recomputation runs strictly before the caller's callback. -/
def registerEvents (onConnect : OnConnectCb) (s : SocketSt)
    (slots : HandlerSlots) : HandlerSlots × List SockAction :=
  if !s.clientPresent then (slots, [.errorNotInit])
  else ({ slots with onConnect := some (fun st => onConnect (setSocketId st)) }, [])

/-- Delivery of a successful connect event by the transport: the stored
on-connect slot (a no-op when nothing is registered) runs on the state
at delivery time. -/
def fireConnect (slots : HandlerSlots) (s : SocketSt) :
    SocketSt × List SockAction :=
  match slots.onConnect with
  | some f => f s
  | none => (s, [])

/-- Count of SockJS transport constructions in an effect trace. -/
def countTransportCreates : List SockAction → Nat
  | [] => 0
  | .createTransport _ :: r => countTransportCreates r + 1
  | _ :: r => countTransportCreates r

/-- Count of transport deactivations (the transport release performed by
`disconnect`) in an effect trace. -/
def countDeactivates : List SockAction → Nat
  | [] => 0
  | .deactivate :: r => countDeactivates r + 1
  | _ :: r => countDeactivates r

/-- Operations a driver program can perform on one `SocketService`
instance (plus the transport-negotiation environment event and scheduler
ticks), used to quantify over all reachable states. -/
inductive SocketOp
  | initOp (serverURL sessionKey token : List Char)
  | negotiate (u : List Char)
  | connectOp
  | disconnectOp
  | startHC (selfNonNull : Bool)
  | clearHC
  | tickOp (publishThrows : Bool)
  | sendOp (dest : List Char)
  | subSessionNotify
  | subSocketNotify
  | subSocketHealth
  | unsubAll
  | cleanupOp

/-- Interpretation of one driver operation. -/
def stepOp : SocketOp → SocketSt → SocketSt × List SockAction
  | .initOp u sk tk, s => initClient u sk tk s
  | .negotiate u, s => (negotiateTransport u s, [])
  | .connectOp, s => connectClient s
  | .disconnectOp, s => disconnectClient s
  | .startHC b, s => startHealthCheck b s
  | .clearHC, s => clearHealthCheck s
  | .tickOp b, s => tick b s
  | .sendOp d, s => send d s
  | .subSessionNotify, s => subscribeSessionNotifyTopic s
  | .subSocketNotify, s => subscribeSocketNotifyTopic s
  | .subSocketHealth, s => subscribeSocketHealthTopic s
  | .unsubAll, s => unsubscribeTopics s
  | .cleanupOp, s => cleanupClient s

/-- Run a sequence of driver operations, concatenating the traces. -/
def runOps : List SocketOp → SocketSt → SocketSt × List SockAction
  | [], s => (s, [])
  | op :: ops, s =>
    let p := stepOp op s
    let q := runOps ops p.fst
    (q.fst, p.snd ++ q.snd)

/-- State reached after the first `n` scheduler ticks, where the
environment function `env` decides at which tick the publish throws. -/
def ticksFrom (env : Nat → Bool) (s : SocketSt) : Nat → SocketSt
  | 0 => s
  | n + 1 => (tick (env n) (ticksFrom env s n)).fst

/-- Effects of tick number `n`. -/
def tickActions (env : Nat → Bool) (s : SocketSt) (n : Nat) : List SockAction :=
  (tick (env n) (ticksFrom env s n)).snd

/-- `ChannelProfileType.ChannelProfileCommunication` of the engine SDK. -/
def ChannelProfileCommunication : Nat := 0

/-- `ClientRoleType.ClientRoleBroadcaster` of the engine SDK. -/
def ClientRoleBroadcaster : Nat := 1

/-- Caller-supplied `ChannelMediaOptions`: every key is optional; a
`none` field models a key the caller omitted from the options object. -/
structure ChannelMediaOptions where
  channelProfile : Option Nat := none
  clientRoleType : Option Nat := none
  publishMicrophoneTrack : Option Bool := none
  publishCameraTrack : Option Bool := none
  autoSubscribeAudio : Option Bool := none
  autoSubscribeVideo : Option Bool := none
  deriving DecidableEq

/-- The fully populated options object handed to `engine.joinChannel`
after the defaults-then-spread merge: every key present. -/
structure MergedChannelOptions where
  channelProfile : Nat
  clientRoleType : Nat
  publishMicrophoneTrack : Bool
  publishCameraTrack : Bool
  autoSubscribeAudio : Bool
  autoSubscribeVideo : Bool
  deriving DecidableEq

/-- Embedding of the options merge in `VekycService.joinChannel`:
the object literal of defaults spread-overridden by the caller's
`options` (`{ ...defaults, ...options }` key by key). -/
def mergeChannelMediaOptions (o : ChannelMediaOptions) : MergedChannelOptions where
  channelProfile := o.channelProfile.getD ChannelProfileCommunication
  clientRoleType := o.clientRoleType.getD ClientRoleBroadcaster
  publishMicrophoneTrack := o.publishMicrophoneTrack.getD true
  publishCameraTrack := o.publishCameraTrack.getD true
  autoSubscribeAudio := o.autoSubscribeAudio.getD true
  autoSubscribeVideo := o.autoSubscribeVideo.getD true

/-- Observable engine-facing effects of a `VekycService` method call
(soft-policy variant that owns its engine handle). -/
inductive VAction
  | createEngine
  | engineInit (appId : List Char)
  | engineRegisterHandler
  | engineUnregisterHandler
  | engineJoin (token channelName : List Char) (localUid : Nat)
      (opts : MergedChannelOptions)
  | engineEnableVideo
  | engineStartPreview
  | engineStopPreview
  | engineEnableLocalAudio (isEnabled : Bool)
  | engineSwitchCamera
  | engineLeave
  | engineRelease
  | errMissingEngine
  deriving DecidableEq

/-- Return value of a `VekycService` method: `none` models the
TypeScript `undefined` of a guarded early return, `some .fromEngine`
a value passed through from the engine, `some .falseVal` the literal
`false` returned by `unregisterEventHandler` without a handler. -/
inductive VRet
  | fromEngine
  | falseVal
  deriving DecidableEq

/-- State of one `VekycService` instance (soft-policy variant):
whether the lazily created engine handle exists and whether an event
handler object is stored. -/
structure VekycSt where
  enginePresent : Bool := false
  handlerPresent : Bool := false
  deriving DecidableEq

/-- A freshly constructed `VekycService`. -/
def vekycInitialState : VekycSt := {}

/-- Embedding of `VekycService.initialize` (soft-policy variant):
lazily creates the engine handle if absent, then initializes it. -/
def vInitEngine (appId : List Char) (s : VekycSt) :
    VekycSt × Option VRet × List VAction :=
  if s.enginePresent then (s, some .fromEngine, [.engineInit appId])
  else ({ s with enginePresent := true }, some .fromEngine,
        [.createEngine, .engineInit appId])

/-- Embedding of `VekycService.registerEventHandler` (soft policy). -/
def vRegisterEventHandler (s : VekycSt) : VekycSt × Option VRet × List VAction :=
  if !s.enginePresent then (s, none, [.errMissingEngine])
  else ({ s with handlerPresent := true }, some .fromEngine,
        [.engineRegisterHandler])

/-- Embedding of `VekycService.joinChannel` (soft policy): merge the
caller options over the fixed defaults, then ask the engine to join. -/
def vJoinChannel (token channelName : List Char) (localUid : Nat)
    (options : ChannelMediaOptions) (s : VekycSt) :
    VekycSt × Option VRet × List VAction :=
  if !s.enginePresent then (s, none, [.errMissingEngine])
  else (s, some .fromEngine,
        [.engineJoin token channelName localUid (mergeChannelMediaOptions options)])

/-- Embedding of `VekycService.enableVideo` (soft policy). -/
def vEnableVideo (s : VekycSt) : VekycSt × Option VRet × List VAction :=
  if !s.enginePresent then (s, none, [.errMissingEngine])
  else (s, some .fromEngine, [.engineEnableVideo])

/-- Embedding of `VekycService.startPreview` (soft policy). -/
def vStartPreview (s : VekycSt) : VekycSt × Option VRet × List VAction :=
  if !s.enginePresent then (s, none, [.errMissingEngine])
  else (s, some .fromEngine, [.engineStartPreview])

/-- Embedding of `VekycService.stopPreview` (soft policy). -/
def vStopPreview (s : VekycSt) : VekycSt × Option VRet × List VAction :=
  if !s.enginePresent then (s, none, [.errMissingEngine])
  else (s, some .fromEngine, [.engineStopPreview])

/-- Embedding of `VekycService.toggleMicrophone` (soft policy). -/
def vToggleMicrophone (isEnabled : Bool) (s : VekycSt) :
    VekycSt × Option VRet × List VAction :=
  if !s.enginePresent then (s, none, [.errMissingEngine])
  else (s, some .fromEngine, [.engineEnableLocalAudio isEnabled])

/-- Embedding of `VekycService.switchCamera` (soft policy). -/
def vSwitchCamera (s : VekycSt) : VekycSt × Option VRet × List VAction :=
  if !s.enginePresent then (s, none, [.errMissingEngine])
  else (s, some .fromEngine, [.engineSwitchCamera])

/-- Embedding of `VekycService.leaveChannel` (soft policy). -/
def vLeaveChannel (s : VekycSt) : VekycSt × Option VRet × List VAction :=
  if !s.enginePresent then (s, none, [.errMissingEngine])
  else (s, some .fromEngine, [.engineLeave])

/-- Embedding of `VekycService.unregisterEventHandler` (soft policy). -/
def vUnregisterEventHandler (s : VekycSt) : VekycSt × Option VRet × List VAction :=
  if !s.enginePresent then (s, none, [.errMissingEngine])
  else if !s.handlerPresent then (s, some .falseVal, [])
  else (s, some .fromEngine, [.engineUnregisterHandler])

/-- Embedding of `VekycService.cleanup` (soft policy): error log when
no engine; otherwise leave the channel, stop the preview, unregister the
handler, release the engine and clear the handle. -/
def vCleanup (s : VekycSt) : VekycSt × List VAction :=
  if !s.enginePresent then (s, [.errMissingEngine])
  else
    let p1 := vLeaveChannel s
    let p2 := vStopPreview p1.fst
    let p3 := vUnregisterEventHandler p2.fst
    ({ p3.fst with enginePresent := false },
     p1.2.2 ++ p2.2.2 ++ p3.2.2 ++ [.engineRelease])

/-- The engine operations of the soft-policy coordinator that are
guarded by the engine-handle check. -/
inductive VOp
  | enableVideoOp
  | startPreviewOp
  | stopPreviewOp
  | toggleMicrophoneOp (isEnabled : Bool)
  | switchCameraOp
  | leaveChannelOp
  | joinChannelOp (token channelName : List Char) (localUid : Nat)
      (options : ChannelMediaOptions)
  | registerEventHandlerOp

/-- Interpretation of one guarded engine operation. -/
def vStep : VOp → VekycSt → VekycSt × Option VRet × List VAction
  | .enableVideoOp, s => vEnableVideo s
  | .startPreviewOp, s => vStartPreview s
  | .stopPreviewOp, s => vStopPreview s
  | .toggleMicrophoneOp b, s => vToggleMicrophone b s
  | .switchCameraOp, s => vSwitchCamera s
  | .leaveChannelOp, s => vLeaveChannel s
  | .joinChannelOp tk ch uid o, s => vJoinChannel tk ch uid o s
  | .registerEventHandlerOp, s => vRegisterEventHandler s

/-- Count of engine constructions in an engine effect trace. -/
def countEngineCreates : List VAction → Nat
  | [] => 0
  | .createEngine :: r => countEngineCreates r + 1
  | _ :: r => countEngineCreates r

/-- Count of engine releases in an engine effect trace. -/
def countEngineReleases : List VAction → Nat
  | [] => 0
  | .engineRelease :: r => countEngineReleases r + 1
  | _ :: r => countEngineReleases r

/-!
Embedding of `CryptoService.encryptionAES` / `decryptionAES`
(`src/crypto/cryptoService.ts`).  Texts and keys are byte lists.  The
CryptoJS AES-CBC machinery the service delegates to is modelled
concretely for everything the repository controls — key truncation, IV
derivation, CBC chaining, PKCS7 padding and the padding-byte-driven
unpadding — while the AES block transform itself (external library
code) is a parameter: a pair of functions `E`/`D` on 16-byte blocks.
The Base64 armoring applied by CryptoJS `toString()` and parsed back by
`decrypt` is a bijection and is modelled as the identity on the
ciphertext bytes. -/

/-- Pointwise XOR of two byte lists (CBC block chaining). -/
def zipXor (a b : List Nat) : List Nat := List.zipWith (fun x y => x ^^^ y) a b

/-- PKCS7 padding to a multiple of the 16-byte AES block size. -/
def pkcs7pad (xs : List Nat) : List Nat :=
  xs ++ List.replicate (16 - xs.length % 16) (16 - xs.length % 16)

/-- CryptoJS-style PKCS7 unpadding: drop as many trailing bytes as the
last byte says, without verifying them. -/
def pkcs7unpad (ys : List Nat) : List Nat :=
  ys.take (ys.length - (ys.getLast?.getD 0))

/-- Fuel-driven split of a byte list into consecutive 16-byte blocks. -/
def toBlocksGo : Nat → List Nat → List (List Nat)
  | 0, _ => []
  | _ + 1, [] => []
  | f + 1, l@(_ :: _) => l.take 16 :: toBlocksGo f (l.drop 16)

/-- Split a byte list into consecutive 16-byte blocks. -/
def toBlocks (l : List Nat) : List (List Nat) := toBlocksGo l.length l

/-- CBC encryption of a block sequence: each plaintext block is XORed
with the previous ciphertext block (initially the IV) and then pushed
through the block transform `E` under `key`. -/
def cbcEncBlocks (E : List Nat → List Nat → List Nat) (key : List Nat) :
    List Nat → List (List Nat) → List (List Nat)
  | _, [] => []
  | prev, b :: bs =>
    let c := E key (zipXor prev b)
    c :: cbcEncBlocks E key c bs

/-- CBC decryption of a block sequence with block transform `D`. -/
def cbcDecBlocks (D : List Nat → List Nat → List Nat) (key : List Nat) :
    List Nat → List (List Nat) → List (List Nat)
  | _, [] => []
  | prev, c :: cs => zipXor prev (D key c) :: cbcDecBlocks D key c cs

/-- Key truncation of both crypto methods: `key.length > 32 ?
key.substring(0, 32) : key`. -/
def truncatedKey (key : List Nat) : List Nat :=
  if key.length > 32 then key.take 32 else key

/-- IV derivation of both crypto methods: the truncated key's first 16
bytes, zero-extended to a full block the way CryptoJS's word-wise CBC
XOR treats a short IV. -/
def ivBytes (key : List Nat) : List Nat :=
  (truncatedKey key).take 16
    ++ List.replicate (16 - ((truncatedKey key).take 16).length) 0

/-- Embedding of `CryptoService.encryptionAES` over the abstract block
transform `E`: truncate the key, derive the IV from it, PKCS7-pad the
plaintext and CBC-encrypt. -/
def encryptionAES (E : List Nat → List Nat → List Nat)
    (text key : List Nat) : List Nat :=
  (cbcEncBlocks E (truncatedKey key) (ivBytes key) (toBlocks (pkcs7pad text))).flatten

/-- Embedding of `CryptoService.decryptionAES` over the abstract block
transform `D`: truncate the key, derive the IV identically, CBC-decrypt
and unpad. -/
def decryptionAES (D : List Nat → List Nat → List Nat)
    (text key : List Nat) : List Nat :=
  pkcs7unpad ((cbcDecBlocks D (truncatedKey key) (ivBytes key) (toBlocks text)).flatten)

/-- The identity block transform: the trivial inhabitant of the block
cipher interface, used to exercise the round-trip theorem on concrete
data. -/
def idBlockCipher : List Nat → List Nat → List Nat := fun _ b => b

/-- Invariant tying the runtime's live interval timers to the
instance's `timerInterval` field: the set of live timers created by this
instance is exactly the recorded handle, and every live timer id was
allocated below the allocator's next id. -/
def TimerInv (s : SocketSt) : Prop :=
  s.liveTimers = s.timerInterval.toList ∧ ∀ t ∈ s.liveTimers, t < s.nextTimerId

end VPage

namespace VPage

theorem clearHealthCheck_clientPresent (s : SocketSt) :
    (clearHealthCheck s).fst.clientPresent = s.clientPresent := by
  cases h : s.timerInterval <;> simp [clearHealthCheck, h]

theorem cleanupClient_absent {s : SocketSt} (h : s.clientPresent = false) :
    cleanupClient s = (s, [.errorNotInit]) := by
  simp [cleanupClient, h]

theorem cleanupClient_present_flag (s : SocketSt) :
    (cleanupClient s).fst.clientPresent = false := by
  by_cases h : s.clientPresent = true
  · cases ht : s.timerInterval <;>
      simp [cleanupClient, clearHealthCheck, disconnectClient, unregisterEvents,
            unsubscribeTopics, h, ht]
  · simp at h
    simp [cleanupClient_absent h, h]

theorem cleanupClient_deactivates (s : SocketSt) :
    countDeactivates (cleanupClient s).snd ≤ 1 := by
  by_cases h : s.clientPresent = true
  · cases ht : s.timerInterval <;>
      simp [cleanupClient, clearHealthCheck, disconnectClient, unregisterEvents,
            unsubscribeTopics, h, ht, countDeactivates]
  · simp at h
    simp [cleanupClient_absent h, countDeactivates]

theorem vCleanup_absent {t : VekycSt} (h : t.enginePresent = false) :
    vCleanup t = (t, [.errMissingEngine]) := by
  simp [vCleanup, h]

theorem vCleanup_present_flag (t : VekycSt) :
    (vCleanup t).fst.enginePresent = false := by
  by_cases h : t.enginePresent = true
  · cases hh : t.handlerPresent <;>
      simp [vCleanup, vLeaveChannel, vStopPreview, vUnregisterEventHandler, h, hh]
  · simp at h
    simp [vCleanup_absent h, h]

theorem vCleanup_releases (t : VekycSt) :
    countEngineReleases (vCleanup t).snd ≤ 1 := by
  by_cases h : t.enginePresent = true
  · cases hh : t.handlerPresent <;>
      simp [vCleanup, vLeaveChannel, vStopPreview, vUnregisterEventHandler, h, hh,
            countEngineReleases]
  · simp at h
    simp [vCleanup_absent h, countEngineReleases]

theorem countDeactivates_append (a b : List SockAction) :
    countDeactivates (a ++ b) = countDeactivates a + countDeactivates b := by
  induction a with
  | nil => simp [countDeactivates]
  | cons x r ih => cases x <;> (simp [countDeactivates, ih]; try omega)

theorem countEngineReleases_append (a b : List VAction) :
    countEngineReleases (a ++ b) = countEngineReleases a + countEngineReleases b := by
  induction a with
  | nil => simp [countEngineReleases]
  | cons x r ih => cases x <;> (simp [countEngineReleases, ih]; try omega)

/-- C8: for both the session channel manager and the call engine
coordinator, a second `cleanup` immediately after a first one finds the
handle already cleared, only reports, changes nothing, and the
underlying transport deactivation / engine release happens at most once
across both calls. -/
theorem cleanup_twice_safe (s : SocketSt) (t : VekycSt) :
    cleanupClient (cleanupClient s).fst = ((cleanupClient s).fst, [.errorNotInit])
    ∧ countDeactivates ((cleanupClient s).snd ++ (cleanupClient (cleanupClient s).fst).snd) ≤ 1
    ∧ vCleanup (vCleanup t).fst = ((vCleanup t).fst, [.errMissingEngine])
    ∧ countEngineReleases ((vCleanup t).snd ++ (vCleanup (vCleanup t).fst).snd) ≤ 1 := by
  have hs2 := cleanupClient_absent (cleanupClient_present_flag s)
  have ht2 := vCleanup_absent (vCleanup_present_flag t)
  refine ⟨hs2, ?_, ht2, ?_⟩
  · rw [countDeactivates_append, hs2]
    have := cleanupClient_deactivates s
    simp [countDeactivates]
    omega
  · rw [countEngineReleases_append, ht2]
    have := vCleanup_releases t
    simp [countEngineReleases]
    omega

/-- C3: a second `initialize` on a session channel manager that already
holds a STOMP client reports a non-fatal error and leaves the whole
instance state — transport handle, session key, auth token included —
exactly as the first call left it. -/
theorem second_init_rejected (s : SocketSt) (h : s.clientPresent = true)
    (u sk tk : List Char) :
    initClient u sk tk s = (s, [.errorAlreadyInit])
    ∧ (initClient u sk tk s).fst.socket = s.socket
    ∧ (initClient u sk tk s).fst.sessionKey = s.sessionKey
    ∧ (initClient u sk tk s).fst.token = s.token := by
  simp [initClient, h]

/-- Closed instance of `second_init_rejected`: after a first
`initialize` from the fresh state, a second call is a pure report. -/
theorem second_init_rejected_witness :
    initClient [] [] [] (initClient [] [] [] initialState).fst
      = ((initClient [] [] [] initialState).fst, [.errorAlreadyInit]) :=
  (second_init_rejected (initClient [] [] [] initialState).fst (by decide)
    [] [] []).1

/-- C7: in the soft-policy call engine coordinator, every
engine-guarded operation invoked while no engine handle exists reports
the missing engine, returns `undefined`, and leaves the state
untouched (total function: nothing is thrown). -/
theorem vekyc_soft_guard (op : VOp) (s : VekycSt) (h : s.enginePresent = false) :
    vStep op s = (s, none, [.errMissingEngine]) := by
  cases op <;>
    simp [vStep, vEnableVideo, vStartPreview, vStopPreview, vToggleMicrophone,
          vSwitchCamera, vLeaveChannel, vJoinChannel, vRegisterEventHandler, h]

/-- Closed instance of `vekyc_soft_guard` at a concrete operation and
the fresh coordinator state. -/
theorem vekyc_soft_guard_witness :
    vStep .enableVideoOp vekycInitialState
      = (vekycInitialState, none, [.errMissingEngine]) :=
  vekyc_soft_guard .enableVideoOp vekycInitialState (by decide)

/-- C6: on an initialized coordinator, `joinChannel` hands the engine
exactly the caller options merged over the fixed defaults: a supplied
`clientRoleType` replaces the broadcaster default, and every omitted key
keeps its default (communication profile, publish both tracks,
auto-subscribe both). -/
theorem joinChannel_merges_options (s : VekycSt) (h : s.enginePresent = true)
    (token ch : List Char) (uid : Nat) (o : ChannelMediaOptions) :
    vJoinChannel token ch uid o s
      = (s, some .fromEngine,
         [.engineJoin token ch uid (mergeChannelMediaOptions o)])
    ∧ (∀ r, o.clientRoleType = some r →
        (mergeChannelMediaOptions o).clientRoleType = r)
    ∧ (o.clientRoleType = none →
        (mergeChannelMediaOptions o).clientRoleType = ClientRoleBroadcaster)
    ∧ (o.channelProfile = none →
        (mergeChannelMediaOptions o).channelProfile = ChannelProfileCommunication)
    ∧ (o.publishMicrophoneTrack = none →
        (mergeChannelMediaOptions o).publishMicrophoneTrack = true)
    ∧ (o.publishCameraTrack = none →
        (mergeChannelMediaOptions o).publishCameraTrack = true)
    ∧ (o.autoSubscribeAudio = none →
        (mergeChannelMediaOptions o).autoSubscribeAudio = true)
    ∧ (o.autoSubscribeVideo = none →
        (mergeChannelMediaOptions o).autoSubscribeVideo = true)
    ∧ (∀ b, o.publishCameraTrack = some b →
        (mergeChannelMediaOptions o).publishCameraTrack = b) := by
  refine ⟨by simp [vJoinChannel, h], ?_, ?_, ?_, ?_, ?_, ?_, ?_, ?_⟩ <;>
    first
      | (intro r hr; simp [mergeChannelMediaOptions, hr])
      | (intro hr; simp [mergeChannelMediaOptions, hr])

/-- Closed instance of `joinChannel_merges_options`: a caller-supplied
audience role (2) overrides the broadcaster default while the omitted
`publishCameraTrack` stays `true`. -/
theorem joinChannel_merges_options_witness :
    (mergeChannelMediaOptions { clientRoleType := some 2 }).clientRoleType = 2
    ∧ (mergeChannelMediaOptions { clientRoleType := some 2 }).publishCameraTrack = true :=
  ⟨(joinChannel_merges_options { enginePresent := true } (by decide) [] [] 0
      { clientRoleType := some 2 }).2.1 2 (by decide),
   (joinChannel_merges_options { enginePresent := true } (by decide) [] [] 0
      { clientRoleType := some 2 }).2.2.2.2.2.1 (by decide)⟩

/-- C1: once `registerEventHandler` has wired an on-connect callback,
delivering a successful connect event runs the stored wrapper, which is
exactly the caller's callback applied to the state on which
`setSocketId` has already recomputed the identity from the negotiated
URL of that event; in particular a `subscribeSocketNotifyTopic` issued
inside the callback subscribes to the topic built from the identity of
this connect event, not from the prior `socketId`. -/
theorem onConnect_recomputes_identity_first (s sF : SocketSt)
    (cb : OnConnectCb) (h : s.clientPresent = true) :
    fireConnect (registerEvents cb s emptySlots).fst sF = cb (setSocketId sF)
    ∧ (sF.clientPresent = true →
        (fireConnect
          (registerEvents (fun st => subscribeSocketNotifyTopic st) s emptySlots).fst
          sF).snd
          = [.subscribeTopic
              (userPrefix ++ setSocketIdCore sF.socket.join sF.socketId ++ notifySuffix)]) := by
  constructor
  · simp [fireConnect, registerEvents, emptySlots, h]
  · intro hF
    simp [fireConnect, registerEvents, emptySlots, h, subscribeSocketNotifyTopic,
          subscribeT, setSocketId, hF]

/-- Closed instance of `onConnect_recomputes_identity_first`: with a
stale identity `old` and a connect event whose negotiated URL carries
the session segment `abc`, the callback's subscription targets
`/user/abc/notify`. -/
theorem onConnect_recomputes_identity_first_witness :
    (fireConnect
      (registerEvents (fun st => subscribeSocketNotifyTopic st)
        (initClient [] [] [] initialState).fst emptySlots).fst
      { socket := some (some (("h/websocket-agent/0/abc/ws").toList)),
        socketId := ("old").toList, clientPresent := true }).snd
      = [.subscribeTopic (("/user/abc/notify").toList)] :=
  ((onConnect_recomputes_identity_first (initClient [] [] [] initialState).fst
      { socket := some (some (("h/websocket-agent/0/abc/ws").toList)),
        socketId := ("old").toList, clientPresent := true }
      (fun st => subscribeSocketNotifyTopic st) (by decide)).2 (by decide)).trans
    (by decide)

theorem clearHealthCheck_timer_none (s : SocketSt) :
    (clearHealthCheck s).fst.timerInterval = none := by
  cases ht : s.timerInterval <;> simp [clearHealthCheck, ht]

theorem clearHealthCheck_nextTimerId (s : SocketSt) :
    (clearHealthCheck s).fst.nextTimerId = s.nextTimerId := by
  cases ht : s.timerInterval <;> simp [clearHealthCheck, ht]

theorem timerInv_untouched {s s' : SocketSt} (h : TimerInv s)
    (e1 : s'.timerInterval = s.timerInterval) (e2 : s'.liveTimers = s.liveTimers)
    (e3 : s'.nextTimerId = s.nextTimerId) : TimerInv s' := by
  obtain ⟨h1, h2⟩ := h
  refine ⟨by rw [e1, e2, h1], ?_⟩
  intro t htl
  rw [e3]
  exact h2 t (by rwa [e2] at htl)

theorem timerInv_clearHC {s : SocketSt} (h : TimerInv s) :
    TimerInv (clearHealthCheck s).fst := by
  obtain ⟨h1, h2⟩ := h
  cases ht : s.timerInterval with
  | none =>
    refine timerInv_untouched ⟨h1, h2⟩ ?_ ?_ ?_ <;> simp [clearHealthCheck, ht]
  | some id =>
    refine ⟨?_, ?_⟩
    · simp only [clearHealthCheck, ht]
      rw [h1, ht]
      simp [Option.toList]
    · intro t htl
      simp only [clearHealthCheck, ht] at htl ⊢
      exact h2 t (List.mem_of_mem_erase htl)

theorem timerInv_startHC {s : SocketSt} (b : Bool) (h : TimerInv s) :
    TimerInv (startHealthCheck b s).fst := by
  have hcl := timerInv_clearHC h
  obtain ⟨h1, h2⟩ := hcl
  cases b with
  | false =>
    refine timerInv_untouched ⟨h1, h2⟩ ?_ ?_ ?_ <;> simp [startHealthCheck]
  | true =>
    have hliv : (clearHealthCheck s).fst.liveTimers = [] := by
      rw [h1, clearHealthCheck_timer_none]
      rfl
    refine ⟨?_, ?_⟩
    · simp [startHealthCheck, hliv, Option.toList]
    · intro t htl
      simp [startHealthCheck, hliv] at htl
      simp [startHealthCheck, htl]

theorem timerInv_validateToken {s : SocketSt} (b : Bool) (h : TimerInv s) :
    TimerInv (validateToken b s).fst := by
  by_cases hc : s.clientPresent = true
  · cases b with
    | false =>
      refine timerInv_untouched h ?_ ?_ ?_ <;> simp [validateToken, hc]
    | true =>
      refine timerInv_untouched (timerInv_clearHC h) ?_ ?_ ?_ <;>
        simp [validateToken, hc]
  · refine timerInv_untouched h ?_ ?_ ?_ <;> simp [validateToken, hc]

theorem timerInv_tick {s : SocketSt} (b : Bool) (h : TimerInv s) :
    TimerInv (tick b s).fst := by
  cases ht : s.timerInterval with
  | none =>
    refine timerInv_untouched h ?_ ?_ ?_ <;> simp [tick, ht]
  | some id =>
    have heq : (tick b s).fst = (validateToken b s).fst := by simp [tick, ht]
    rw [heq]
    exact timerInv_validateToken b h

theorem timerInv_cleanup {s : SocketSt} (h : TimerInv s) :
    TimerInv (cleanupClient s).fst := by
  by_cases hc : s.clientPresent = true
  · refine timerInv_untouched (timerInv_clearHC h) ?_ ?_ ?_ <;>
      cases ht : s.timerInterval <;>
        simp [cleanupClient, clearHealthCheck, disconnectClient, unregisterEvents,
              unsubscribeTopics, hc, ht]
  · rw [cleanupClient_absent (by simpa using hc)]
    exact h

theorem timerInv_stepOp (op : SocketOp) {s : SocketSt} (h : TimerInv s) :
    TimerInv (stepOp op s).fst := by
  cases op with
  | initOp u sk tk =>
    refine timerInv_untouched h ?_ ?_ ?_ <;>
      by_cases hc : s.clientPresent = true <;> simp [stepOp, initClient, hc]
  | negotiate u =>
    refine timerInv_untouched h ?_ ?_ ?_ <;> simp [stepOp, negotiateTransport]
  | connectOp =>
    refine timerInv_untouched h ?_ ?_ ?_ <;>
      by_cases hc : s.clientPresent = true <;>
        by_cases hn : s.connected = true <;> simp [stepOp, connectClient, hc, hn]
  | disconnectOp =>
    refine timerInv_untouched h ?_ ?_ ?_ <;>
      by_cases hc : s.clientPresent = true <;> simp [stepOp, disconnectClient, hc]
  | startHC b => exact timerInv_startHC b h
  | clearHC => exact timerInv_clearHC h
  | tickOp b => exact timerInv_tick b h
  | sendOp d =>
    refine timerInv_untouched h ?_ ?_ ?_ <;>
      by_cases hc : s.clientPresent = true <;> simp [stepOp, send, hc]
  | subSessionNotify =>
    refine timerInv_untouched h ?_ ?_ ?_ <;>
      by_cases hc : s.clientPresent = true <;>
        simp [stepOp, subscribeSessionNotifyTopic, subscribeT, hc]
  | subSocketNotify =>
    refine timerInv_untouched h ?_ ?_ ?_ <;>
      by_cases hc : s.clientPresent = true <;>
        simp [stepOp, subscribeSocketNotifyTopic, subscribeT, hc]
  | subSocketHealth =>
    refine timerInv_untouched h ?_ ?_ ?_ <;>
      by_cases hc : s.clientPresent = true <;>
        simp [stepOp, subscribeSocketHealthTopic, subscribeT, hc]
  | unsubAll =>
    refine timerInv_untouched h ?_ ?_ ?_ <;>
      by_cases hc : s.clientPresent = true <;> simp [stepOp, unsubscribeTopics, hc]
  | cleanupOp => exact timerInv_cleanup h

theorem timerInv_runOps (ops : List SocketOp) :
    ∀ s : SocketSt, TimerInv s → TimerInv (runOps ops s).fst := by
  induction ops with
  | nil => intro s h; exact h
  | cons op ops ih =>
    intro s h
    exact ih _ (timerInv_stepOp op h)

theorem timerInv_initialState : TimerInv initialState := by
  constructor <;> simp [initialState, TimerInv, Option.toList]

/-- C5: from any reachable state of a session channel manager, at most
one health-check interval timer created by the instance is live, and a
`startHealthCheck` call leaves exactly one live timer — the freshly
scheduled recurring 3000 ms task — with any previously recorded timer
cancelled (its id is no longer live). -/
theorem healthcheck_timer_unique (ops : List SocketOp) :
    (runOps ops initialState).fst.liveTimers.length ≤ 1
    ∧ (startHealthCheck true (runOps ops initialState).fst).fst.liveTimers
        = [(runOps ops initialState).fst.nextTimerId]
    ∧ SockAction.setIntervalA (runOps ops initialState).fst.nextTimerId 3000
        ∈ (startHealthCheck true (runOps ops initialState).fst).snd
    ∧ ∀ tid, (runOps ops initialState).fst.timerInterval = some tid →
        tid ∉ (startHealthCheck true (runOps ops initialState).fst).fst.liveTimers := by
  have hInv := timerInv_runOps ops initialState timerInv_initialState
  obtain ⟨h1, h2⟩ := hInv
  have hclr : (clearHealthCheck (runOps ops initialState).fst).fst.liveTimers = [] := by
    rw [(timerInv_clearHC ⟨h1, h2⟩).1, clearHealthCheck_timer_none]
    rfl
  refine ⟨?_, ?_, ?_, ?_⟩
  · rw [h1]
    cases (runOps ops initialState).fst.timerInterval <;> simp [Option.toList]
  · simp [startHealthCheck, hclr, clearHealthCheck_nextTimerId]
  · have hsnd : (startHealthCheck true (runOps ops initialState).fst).snd
        = (clearHealthCheck (runOps ops initialState).fst).snd
          ++ [.setIntervalA (runOps ops initialState).fst.nextTimerId 3000, .logStarted] := by
      simp [startHealthCheck, clearHealthCheck_nextTimerId]
    rw [hsnd]
    exact List.mem_append_right _ (by simp)
  · intro tid htid
    simp [startHealthCheck, hclr, clearHealthCheck_nextTimerId]
    have : tid ∈ (runOps ops initialState).fst.liveTimers := by
      rw [h1, htid]; simp [Option.toList]
    have := h2 tid this
    omega

/-- Closed instance of `healthcheck_timer_unique`: after a second
`startHealthCheck`, the first timer (id 0) is no longer live. -/
theorem healthcheck_timer_unique_witness :
    0 ∉ (startHealthCheck true
      (runOps [.initOp [] [] [], .startHC true] initialState).fst).fst.liveTimers :=
  (healthcheck_timer_unique [.initOp [] [] [], .startHC true]).2.2.2 0 (by decide)

theorem tick_clientPresent (b : Bool) (s : SocketSt) :
    (tick b s).fst.clientPresent = s.clientPresent := by
  cases ht : s.timerInterval with
  | none => simp [tick, ht]
  | some id =>
    by_cases hc : s.clientPresent = true <;>
      cases b <;> simp [tick, validateToken, clearHealthCheck, ht, hc]

theorem ticksFrom_clientPresent (env : Nat → Bool) (s : SocketSt) (n : Nat) :
    (ticksFrom env s n).clientPresent = s.clientPresent := by
  induction n with
  | zero => rfl
  | succ n ih => rw [ticksFrom, tick_clientPresent, ih]

theorem tick_timer_off {s : SocketSt} (h : s.timerInterval = none) (b : Bool) :
    tick b s = (s, []) := by
  simp [tick, h]

theorem ticksFrom_stable (env : Nat → Bool) (s : SocketSt) (m : Nat)
    (h : (ticksFrom env s m).timerInterval = none) :
    ∀ d, ticksFrom env s (m + d) = ticksFrom env s m := by
  intro d
  induction d with
  | zero => rfl
  | succ d ih =>
    show (tick (env (m + d)) (ticksFrom env s (m + d))).fst = _
    rw [ih, tick_timer_off h]

/-- C4: if the health-check iteration at tick `i` performs a send that
throws (while the client is present and the timer is live), that very
iteration warns and cancels the interval timer, and no later tick of
the timer produces any effect — in particular no further health ping is
ever published by it. -/
theorem healthcheck_self_terminating (env : Nat → Bool) (s : SocketSt)
    (i tid : Nat) (hc : s.clientPresent = true)
    (ht : (ticksFrom env s i).timerInterval = some tid) (he : env i = true) :
    (ticksFrom env s (i + 1)).timerInterval = none
    ∧ tickActions env s i = [.warnStopping, .clearIntervalA tid, .logCleared]
    ∧ ∀ j, i < j → tickActions env s j = [] := by
  have hcp : (ticksFrom env s i).clientPresent = true := by
    rw [ticksFrom_clientPresent]; exact hc
  have h1 : (ticksFrom env s (i + 1)).timerInterval = none := by
    show (tick (env i) (ticksFrom env s i)).fst.timerInterval = none
    simp [tick, ht, validateToken, hcp, he, clearHealthCheck]
  refine ⟨h1, ?_, ?_⟩
  · simp [tickActions, tick, ht, validateToken, hcp, he, clearHealthCheck]
  · intro j hij
    obtain ⟨d, hd⟩ := Nat.exists_eq_add_of_lt hij
    subst hd
    have hst : ticksFrom env s (i + 1 + d) = ticksFrom env s (i + 1) :=
      ticksFrom_stable env s (i + 1) h1 d
    have : ticksFrom env s (i + d + 1) = ticksFrom env s (i + 1) := by
      rw [show i + d + 1 = i + 1 + d by omega] at *
      exact hst
    rw [tickActions, this, tick_timer_off h1]

/-- Closed instance of `healthcheck_self_terminating`: a throw at tick 1
leaves tick 3 with no effects at all. -/
theorem healthcheck_self_terminating_witness :
    tickActions (fun n => n == 1)
      (startHealthCheck true (initClient [] [] [] initialState).fst).fst 3 = [] :=
  (healthcheck_self_terminating (fun n => n == 1)
      (startHealthCheck true (initClient [] [] [] initialState).fst).fst 1 0
      (by decide) (by decide) (by decide)).2.2 3 (by decide)

/-- Counterexample to C2 as stated: driving one session channel manager
through initialize → cleanup → initialize creates a second transport
handle (so "at most one transport handle over the instance's lifetime"
fails), and on the call engine coordinator the released state reached by
`cleanup` is not terminal — a further `initialize` on the same instance
re-creates the engine and `enableVideo` works again. -/
theorem single_transport_claim_fails :
    ¬ countTransportCreates
        (runOps [.initOp [] [] [], .cleanupOp, .initOp [] [] []] initialState).snd ≤ 1
    ∧ (vInitEngine [] (vCleanup (vInitEngine [] vekycInitialState).fst).fst).fst.enginePresent
        = true
    ∧ (vEnableVideo
        (vInitEngine [] (vCleanup (vInitEngine [] vekycInitialState).fst).fst).fst).2.1
        = some .fromEngine := by
  decide

/-- C2 (amended): a second `initialize` is rejected only while the
handle exists; `cleanup` always clears the handle, and on a cleared
instance `initialize` creates a fresh transport/engine — the
post-cleanup state is re-usable rather than terminal. -/
theorem handle_recreated_after_cleanup (s : SocketSt) (u sk tk : List Char)
    (t : VekycSt) (appId : List Char) :
    (s.clientPresent = true → initClient u sk tk s = (s, [.errorAlreadyInit]))
    ∧ (s.clientPresent = false →
        (initClient u sk tk s).fst.clientPresent = true
        ∧ (initClient u sk tk s).snd = [.createTransport (u ++ SOCKET_PATH)])
    ∧ (vCleanup t).fst.enginePresent = false
    ∧ (t.enginePresent = false →
        (vInitEngine appId t).fst.enginePresent = true
        ∧ (vInitEngine appId t).2.2 = [.createEngine, .engineInit appId]
        ∧ (vInitEngine appId t).2.1 = some .fromEngine) := by
  refine ⟨fun h => by simp [initClient, h], fun h => by simp [initClient, h],
    vCleanup_present_flag t, fun h => by simp [vInitEngine, h]⟩

/-- Closed instance of `handle_recreated_after_cleanup` on the states of
the counterexample run. -/
theorem handle_recreated_after_cleanup_witness :
    (vInitEngine [] (vCleanup (vInitEngine [] vekycInitialState).fst).fst).fst.enginePresent
      = true :=
  ((handle_recreated_after_cleanup initialState [] [] []
      (vCleanup (vInitEngine [] vekycInitialState).fst).fst []).2.2.2 (by decide)).1

theorem leadsWith_nil_false {sep : List Char} (h : sep ≠ []) :
    leadsWith sep [] = false := by
  cases sep with
  | nil => exact absurd rfl h
  | cons a as => rfl

theorem jsIncludes_nil_false {sep : List Char} (h : sep ≠ []) :
    jsIncludes sep [] = false := by
  show leadsWith sep [] = false
  exact leadsWith_nil_false h

theorem splitGo_length_pos (sep : List Char) :
    ∀ f acc l, 1 ≤ (splitGo sep f acc l).length := by
  intro f
  induction f with
  | zero =>
    intro acc l
    cases l <;> simp [splitGo]
  | succ f ih =>
    intro acc l
    cases l with
    | nil => simp [splitGo]
    | cons c cs =>
      by_cases hp : (leadsWith sep (c :: cs) && !sep.isEmpty) = true
      · simp [splitGo, hp]
      · simpa [splitGo, hp] using ih (c :: acc) cs

theorem splitGo_ge_two (sep : List Char) (hsep : sep ≠ []) :
    ∀ f acc l, l.length ≤ f → jsIncludes sep l = true →
      2 ≤ (splitGo sep f acc l).length := by
  have hie : sep.isEmpty = false := by
    cases sep with
    | nil => exact absurd rfl hsep
    | cons a as => rfl
  intro f
  induction f with
  | zero =>
    intro acc l hl hinc
    have hnil : l = [] := List.length_eq_zero.mp (Nat.le_zero.mp hl)
    rw [hnil, jsIncludes_nil_false hsep] at hinc
    exact absurd hinc (by simp)
  | succ f ih =>
    intro acc l hl hinc
    cases l with
    | nil =>
      rw [jsIncludes_nil_false hsep] at hinc
      exact absurd hinc (by simp)
    | cons c cs =>
      by_cases hp : leadsWith sep (c :: cs) = true
      · have hcond : (leadsWith sep (c :: cs) && !sep.isEmpty) = true := by
          simp [hp, hie]
        have hpos := splitGo_length_pos sep f [] (List.drop sep.length (c :: cs))
        simp [splitGo, hcond]
        omega
      · have hcond : (leadsWith sep (c :: cs) && !sep.isEmpty) = false := by
          simp [Bool.not_eq_true] at hp
          simp [hp]
        have hinc' : jsIncludes sep cs = true := by
          have : jsIncludes sep (c :: cs)
              = (leadsWith sep (c :: cs) || jsIncludes sep cs) := rfl
          rw [this] at hinc
          simp [Bool.not_eq_true] at hp
          simpa [hp] using hinc
        have hl' : cs.length ≤ f := by
          simp at hl
          omega
        simpa [splitGo, hcond] using ih (c :: acc) cs hl' hinc'

theorem jsSplit_ge_two {sep l : List Char} (hsep : sep ≠ [])
    (h : jsIncludes sep l = true) : 2 ≤ (jsSplit sep l).length :=
  splitGo_ge_two sep hsep l.length [] l (le_refl _) h

theorem jsIncludes_ne_nil {sep l : List Char} (hsep : sep ≠ [])
    (h : jsIncludes sep l = true) : l ≠ [] := by
  intro hc
  rw [hc, jsIncludes_nil_false hsep] at h
  exact absurd h (by simp)

/-- C10: on a connect event, when the negotiated URL contains the
signaling path marker, the identity is always overwritten with the
segment at the fixed offset after the marker — a value independent of
the previous identity — and in particular with the empty string when
fewer than three '/'-separated segments follow the marker; only an
absent URL or a URL without the marker preserves the prior identity. -/
theorem socketId_overwritten_on_short_path (u old : List Char) :
    setSocketIdCore none old = old
    ∧ (jsIncludes SOCKET_PATH u = false → setSocketIdCore (some u) old = old)
    ∧ (jsIncludes SOCKET_PATH u = true →
        setSocketIdCore (some u) old
          = ((jsSplit slashSep (((jsSplit SOCKET_PATH u).get? 1).getD [])).get? 2).getD [])
    ∧ (jsIncludes SOCKET_PATH u = true →
        (jsSplit slashSep (((jsSplit SOCKET_PATH u).get? 1).getD [])).length < 3 →
        setSocketIdCore (some u) old = []) := by
  have hsep : SOCKET_PATH ≠ [] := by decide
  have key : jsIncludes SOCKET_PATH u = true →
      setSocketIdCore (some u) old
        = ((jsSplit slashSep (((jsSplit SOCKET_PATH u).get? 1).getD [])).get? 2).getD [] := by
    intro h
    have hne : u ≠ [] := jsIncludes_ne_nil hsep h
    have hlen := jsSplit_ge_two hsep h
    obtain ⟨p0, rest0, hsp⟩ : ∃ p0 r, jsSplit SOCKET_PATH u = p0 :: r := by
      cases hs : jsSplit SOCKET_PATH u with
      | nil => rw [hs] at hlen; simp at hlen
      | cons a r => exact ⟨a, r, rfl⟩
    obtain ⟨p1, rest1, hr⟩ : ∃ p1 r1, rest0 = p1 :: r1 := by
      cases hr' : rest0 with
      | nil => rw [hsp, hr'] at hlen; simp at hlen
      | cons a r => exact ⟨a, r, rfl⟩
    subst hr
    simp [setSocketIdCore, h, hne, hsp]
  refine ⟨rfl, ?_, key, ?_⟩
  · intro h
    simp [setSocketIdCore, h]
  · intro h hlt
    have h2 : (jsSplit slashSep (((jsSplit SOCKET_PATH u).get? 1).getD [])).get? 2 = none :=
      List.get?_eq_none.mpr (by omega)
    rw [key h, h2]
    rfl

/-- Closed instance of `socketId_overwritten_on_short_path`: a URL whose
portion after the marker has only two '/'-separated segments wipes the
previous identity to the empty string. -/
theorem socketId_overwritten_on_short_path_witness :
    setSocketIdCore (some (("x/websocket-agent/a").toList)) (("prev").toList) = [] :=
  (socketId_overwritten_on_short_path (("x/websocket-agent/a").toList)
      (("prev").toList)).2.2.2 (by decide) (by decide)

theorem zipXor_zipXor (iv : List Nat) :
    ∀ b : List Nat, b.length ≤ iv.length → zipXor iv (zipXor iv b) = b := by
  induction iv with
  | nil =>
    intro b hb
    have : b = [] := List.length_eq_zero.mp (Nat.le_zero.mp hb)
    rw [this]
    rfl
  | cons i ivs ih =>
    intro b hb
    cases b with
    | nil => rfl
    | cons x xs =>
      have hx : i ^^^ (i ^^^ x) = x := by
        rw [← Nat.xor_assoc, Nat.xor_self, Nat.zero_xor]
      have h' : xs.length ≤ ivs.length := by
        simp at hb
        omega
      show (i ^^^ (i ^^^ x)) :: zipXor ivs (zipXor ivs xs) = x :: xs
      rw [hx, ih xs h']

theorem zipXor_length_16 {iv b : List Nat} (hiv : iv.length = 16)
    (hb : b.length = 16) : (zipXor iv b).length = 16 := by
  simp [zipXor, hiv, hb]

theorem cbcEnc_lengths (E : List Nat → List Nat → List Nat) (key : List Nat)
    (hE : ∀ k b, b.length = 16 → (E k b).length = 16) :
    ∀ (bs : List (List Nat)) (prev : List Nat), prev.length = 16 →
      (∀ b ∈ bs, b.length = 16) →
      ∀ c ∈ cbcEncBlocks E key prev bs, c.length = 16 := by
  intro bs
  induction bs with
  | nil =>
    intro prev _ _ c hc
    simp [cbcEncBlocks] at hc
  | cons b bs ih =>
    intro prev hprev hall c hc
    have hb : b.length = 16 := hall b (by simp)
    have hxb : (zipXor prev b).length = 16 := zipXor_length_16 hprev hb
    have hcb : (E key (zipXor prev b)).length = 16 := hE key _ hxb
    simp [cbcEncBlocks] at hc
    rcases hc with rfl | hc
    · exact hcb
    · exact ih (E key (zipXor prev b)) hcb
        (fun x hx => hall x (List.mem_cons_of_mem _ hx)) c hc

theorem cbc_dec_enc (E D : List Nat → List Nat → List Nat) (key : List Nat)
    (hE : ∀ k b, b.length = 16 → (E k b).length = 16)
    (hD : ∀ k b, b.length = 16 → D k (E k b) = b) :
    ∀ (bs : List (List Nat)) (prev : List Nat), prev.length = 16 →
      (∀ b ∈ bs, b.length = 16) →
      cbcDecBlocks D key prev (cbcEncBlocks E key prev bs) = bs := by
  intro bs
  induction bs with
  | nil => intro prev _ _; rfl
  | cons b bs ih =>
    intro prev hprev hall
    have hb : b.length = 16 := hall b (by simp)
    have hxb : (zipXor prev b).length = 16 := zipXor_length_16 hprev hb
    show zipXor prev (D key (E key (zipXor prev b)))
        :: cbcDecBlocks D key (E key (zipXor prev b))
             (cbcEncBlocks E key (E key (zipXor prev b)) bs)
        = b :: bs
    rw [hD key _ hxb]
    rw [zipXor_zipXor prev b (by rw [hb, hprev])]
    rw [ih (E key (zipXor prev b)) (hE key _ hxb)
      (fun x hx => hall x (List.mem_cons_of_mem _ hx))]

theorem pkcs7pad_mod (xs : List Nat) : (pkcs7pad xs).length % 16 = 0 := by
  simp [pkcs7pad]
  omega

theorem getLast?_replicate_self (n : Nat) (h : 1 ≤ n) (x : Nat) :
    (List.replicate n x).getLast? = some x := by
  induction n with
  | zero => omega
  | succ m ih =>
    cases m with
    | zero => rfl
    | succ m' =>
      calc (List.replicate (m' + 2) x).getLast?
          = (x :: x :: List.replicate m' x).getLast? := by
            simp [List.replicate_succ]
        _ = (x :: List.replicate m' x).getLast? := List.getLast?_cons_cons
        _ = (List.replicate (m' + 1) x).getLast? := by
            simp [List.replicate_succ]
        _ = some x := ih (by omega)

theorem pkcs7unpad_pad (xs : List Nat) : pkcs7unpad (pkcs7pad xs) = xs := by
  have hn1 : 1 ≤ 16 - xs.length % 16 := by omega
  have hlast : (xs ++ List.replicate (16 - xs.length % 16) (16 - xs.length % 16)).getLast?
      = some (16 - xs.length % 16) := by
    rw [List.getLast?_append_of_ne_nil]
    · exact getLast?_replicate_self _ hn1 _
    · simp
      omega
  show (xs ++ List.replicate (16 - xs.length % 16) (16 - xs.length % 16)).take
      ((xs ++ List.replicate (16 - xs.length % 16) (16 - xs.length % 16)).length
        - ((xs ++ List.replicate (16 - xs.length % 16) (16 - xs.length % 16)).getLast?.getD 0))
      = xs
  rw [hlast]
  simp only [Option.getD_some, List.length_append, List.length_replicate]
  rw [show xs.length + (16 - xs.length % 16) - (16 - xs.length % 16) = xs.length by omega]
  exact List.take_left xs _

theorem toBlocksGo_step (f : Nat) (l : List Nat) (hne : l ≠ []) :
    toBlocksGo (f + 1) l = l.take 16 :: toBlocksGo f (l.drop 16) := by
  cases l with
  | nil => exact absurd rfl hne
  | cons c cs => rfl

theorem toBlocksGo_fuel :
    ∀ f g l, l.length ≤ f → l.length ≤ g → toBlocksGo f l = toBlocksGo g l := by
  intro f
  induction f with
  | zero =>
    intro g l hf _
    have : l = [] := List.length_eq_zero.mp (Nat.le_zero.mp hf)
    subst this
    cases g <;> rfl
  | succ f ih =>
    intro g l hf hg
    cases l with
    | nil => cases g <;> rfl
    | cons c cs =>
      cases g with
      | zero => simp at hg
      | succ g' =>
        rw [toBlocksGo_step f (c :: cs) (by simp), toBlocksGo_step g' (c :: cs) (by simp)]
        have hlen : ((c :: cs).drop 16).length = cs.length + 1 - 16 := by simp
        rw [ih g' ((c :: cs).drop 16) (by simp at hf ⊢; omega) (by simp at hg ⊢; omega)]

theorem toBlocks_flatten :
    ∀ bs : List (List Nat), (∀ b ∈ bs, b.length = 16) → toBlocks bs.flatten = bs := by
  intro bs
  induction bs with
  | nil => intro _; rfl
  | cons b bs ih =>
    intro hall
    have hb : b.length = 16 := hall b (by simp)
    obtain ⟨c, cs, rfl⟩ : ∃ c cs, b = c :: cs := by
      cases b with
      | nil => simp at hb
      | cons c cs => exact ⟨c, cs, rfl⟩
    have ht : ((c :: cs) ++ bs.flatten).take 16 = c :: cs := by
      rw [← hb]
      exact List.take_left _ _
    have hd : ((c :: cs) ++ bs.flatten).drop 16 = bs.flatten := by
      rw [← hb]
      exact List.drop_left _ _
    show toBlocksGo ((c :: cs) ++ bs.flatten).length ((c :: cs) ++ bs.flatten)
        = (c :: cs) :: bs
    have hlen : ((c :: cs) ++ bs.flatten).length = (cs ++ bs.flatten).length + 1 := by
      simp
    rw [hlen, toBlocksGo_step _ _ (by simp), ht, hd]
    rw [toBlocksGo_fuel (cs ++ bs.flatten).length bs.flatten.length bs.flatten
      (by simp) (le_refl _)]
    exact congrArg (List.cons (c :: cs)) (ih (fun x hx => hall x (List.mem_cons_of_mem _ hx)))

theorem flatten_toBlocksGo :
    ∀ f l, l.length ≤ f → l.length % 16 = 0 → (toBlocksGo f l).flatten = l := by
  intro f
  induction f with
  | zero =>
    intro l hf _
    have : l = [] := List.length_eq_zero.mp (Nat.le_zero.mp hf)
    subst this
    rfl
  | succ f ih =>
    intro l hf hmod
    cases l with
    | nil => rfl
    | cons c cs =>
      rw [toBlocksGo_step f (c :: cs) (by simp)]
      simp only [List.flatten_cons]
      rw [ih ((c :: cs).drop 16) (by simp at hf ⊢; omega) (by simp at hmod ⊢; omega)]
      exact List.take_append_drop 16 (c :: cs)

theorem flatten_toBlocks (l : List Nat) (h : l.length % 16 = 0) :
    (toBlocks l).flatten = l :=
  flatten_toBlocksGo l.length l (le_refl _) h

theorem toBlocksGo_lens :
    ∀ f l, l.length % 16 = 0 → ∀ b ∈ toBlocksGo f l, b.length = 16 := by
  intro f
  induction f with
  | zero =>
    intro l _ b hb
    simp [toBlocksGo] at hb
  | succ f ih =>
    intro l hmod b hb
    cases l with
    | nil => simp [toBlocksGo] at hb
    | cons c cs =>
      rw [toBlocksGo_step f (c :: cs) (by simp)] at hb
      simp only [List.mem_cons] at hb
      rcases hb with rfl | hb
      · simp only [List.length_take, List.length_cons]
        have : cs.length + 1 ≥ 16 := by
          simp at hmod
          omega
        omega
      · exact ih ((c :: cs).drop 16) (by simp at hmod ⊢; omega) b hb

theorem toBlocks_lens (l : List Nat) (h : l.length % 16 = 0) :
    ∀ b ∈ toBlocks l, b.length = 16 :=
  toBlocksGo_lens l.length l h

theorem ivBytes_length (key : List Nat) : (ivBytes key).length = 16 := by
  simp [ivBytes]

/-- C9: decrypting the encryption of any plaintext under the same key
recovers the plaintext, with the key truncated to its first 32 bytes
and the IV taken from the truncated key's first 16 bytes identically on
both sides; the external AES block transform is abstract, assumed only
to be a block-size-preserving inverse pair on 16-byte blocks (the
contract of the CryptoJS cipher core). -/
theorem aes_encrypt_decrypt_roundtrip (E D : List Nat → List Nat → List Nat)
    (hE : ∀ k b, b.length = 16 → (E k b).length = 16)
    (hD : ∀ k b, b.length = 16 → D k (E k b) = b)
    (text key : List Nat) :
    decryptionAES D (encryptionAES E text key) key = text := by
  have hivlen : (ivBytes key).length = 16 := ivBytes_length key
  have hpadmod : (pkcs7pad text).length % 16 = 0 := pkcs7pad_mod text
  have hplens : ∀ b ∈ toBlocks (pkcs7pad text), b.length = 16 :=
    toBlocks_lens (pkcs7pad text) hpadmod
  have hclens : ∀ c ∈ cbcEncBlocks E (truncatedKey key) (ivBytes key)
      (toBlocks (pkcs7pad text)), c.length = 16 :=
    cbcEnc_lengths E (truncatedKey key) hE _ _ hivlen hplens
  rw [decryptionAES, encryptionAES]
  rw [toBlocks_flatten _ hclens]
  rw [cbc_dec_enc E D (truncatedKey key) hE hD _ _ hivlen hplens]
  rw [flatten_toBlocks _ hpadmod]
  exact pkcs7unpad_pad text

/-- Closed instance of `aes_encrypt_decrypt_roundtrip`, with the
identity block transform (which trivially satisfies the inverse-pair
contract) on a concrete plaintext and key. -/
theorem aes_encrypt_decrypt_roundtrip_witness :
    decryptionAES idBlockCipher
      (encryptionAES idBlockCipher [72, 105] [65, 66]) [65, 66] = [72, 105] :=
  aes_encrypt_decrypt_roundtrip idBlockCipher idBlockCipher
    (fun _ _ hb => hb) (fun _ _ _ => rfl) [72, 105] [65, 66]

end VPage
